import Mathlib

/-!
Verification development for the MyStagram notification pipeline
(`backend/services/notifications`, `backend/scripts/prune_dismissed_notifications.py`).

The Python sources are embedded shallowly: strings are Lean `String`s over their
character lists, machine integers are `Nat`/`Int` (Python integers are unbounded, so
no wrap-around is modelled), timestamps are `Nat` ticks, the SQL store is an explicit
record of row lists, and each `async` service function becomes a pure state-passing
function.  Python-level exceptions (`ValueError`) become `Except` results.

Scope notes on the string model: the embedding works over the character strings the
codec is specified for.  Python's `str.isdigit`/`int` accept some non-ASCII digit
characters and `str.strip` strips a few non-ASCII whitespace characters; the model
uses the ASCII fragment of both, which is faithful on every identifier the system
builds or documents.
-/

namespace MyStagram

/-! ### Python string primitives (ASCII fragment) -/

/-- Characters stripped by Python `str.strip()` (ASCII whitespace). -/
def isPySpace (c : Char) : Bool :=
  c = ' ' || c = '\t' || c = '\n' || c = '\r' || c = '\x0b' || c = '\x0c'

def pyStripList (l : List Char) : List Char :=
  ((l.dropWhile isPySpace).reverse.dropWhile isPySpace).reverse

/-- Python `str.strip()` with no arguments. -/
def pyStrip (s : String) : String :=
  ⟨pyStripList s.data⟩

/-- Python `str.startswith(pat)`. -/
def pyStartsWith (pat l : List Char) : Bool :=
  pat.isPrefixOf l

/-- Python `str.removeprefix(pat)`. -/
def pyDropLead (pat l : List Char) : List Char :=
  if pat.isPrefixOf l then l.drop pat.length else l

/-- Split off everything before the first occurrence of `sep`; `none` when `sep`
does not occur. -/
def splitFirst (sep : Char) : List Char → Option (List Char × List Char)
  | [] => none
  | c :: cs =>
    if c = sep then some ([], cs)
    else (splitFirst sep cs).map (fun p => (c :: p.1, p.2))

theorem splitFirst_length {sep : Char} :
    ∀ {l a b : List Char}, splitFirst sep l = some (a, b) →
      a.length + b.length + 1 = l.length := by
  intro l
  induction l with
  | nil => intro a b h; simp [splitFirst] at h
  | cons c cs ih =>
    intro a b h
    rw [splitFirst] at h
    split at h
    · rw [Option.some.injEq, Prod.mk.injEq] at h
      obtain ⟨ha, hb⟩ := h
      subst ha; subst hb; simp
    · match hsf : splitFirst sep cs with
      | none => rw [hsf] at h; simp at h
      | some (p, q) =>
        rw [hsf] at h
        simp only [Option.map_some'] at h
        rw [Option.some.injEq, Prod.mk.injEq] at h
        obtain ⟨ha, hb⟩ := h
        subst hb
        have hlen := ih hsf
        subst ha
        simp only [List.length_cons, List.length_append]
        simp at hlen ⊢
        omega

/-- Python `s.split(sep, maxsplit)`: at most `fuel` splits. -/
def splitMax (sep : Char) : Nat → List Char → List (List Char)
  | 0, l => [l]
  | fuel + 1, l =>
    match splitFirst sep l with
    | none => [l]
    | some (a, b) => a :: splitMax sep fuel b

/-- Python `s.split(sep)` with no maxsplit (used to state the spec's
"exactly two `-`-delimited segments" reading). -/
def splitFull (sep : Char) (l : List Char) : List (List Char) :=
  match h : splitFirst sep l with
  | none => [l]
  | some (a, b) => a :: splitFull sep b
termination_by l.length
decreasing_by
  have := splitFirst_length h
  omega

/-- Python `str.replace(pat, "")`: drop non-overlapping occurrences left to right. -/
def removeAll (pat : List Char) (l : List Char) : List Char :=
  match l with
  | [] => []
  | c :: cs =>
    if pat ≠ [] ∧ (c :: cs).take pat.length = pat then
      removeAll pat ((c :: cs).drop pat.length)
    else
      c :: removeAll pat cs
termination_by l.length
decreasing_by
  · rename_i h
    have hlen : pat.length ≠ 0 := by
      intro h0
      exact h.1 (List.eq_nil_of_length_eq_zero h0)
    simp [List.length_drop]
    omega
  · simp

/-- Value of a list of ASCII decimal digits (model of Python `int(s)` on digit
strings). -/
def decodeDigits (l : List Char) : Nat :=
  l.foldl (fun n c => n * 10 + (c.toNat - 48)) 0

/-! ### Notification ID codec (`services/notifications/ids.py`) -/

/-- Embeds `_is_positive_integer`: non-empty, all digits, integer value `> 0`. -/
def _is_positive_integer (l : List Char) : Bool :=
  (!l.isEmpty) && l.all (fun c => c.isDigit) && decide (0 < decodeDigits l)

def isHexDigitChar (c : Char) : Bool :=
  c.isDigit || ('a' ≤ c && c ≤ 'f') || ('A' ≤ c && c ≤ 'F')

def hexVal (c : Char) : Nat :=
  if c.isDigit then c.toNat - 48
  else if 'a' ≤ c then c.toNat - 87
  else c.toNat - 55

def hexValue (l : List Char) : Nat :=
  l.foldl (fun n c => n * 16 + hexVal c) 0

def toHexChar (n : Nat) : Char :=
  if n < 10 then Char.ofNat (48 + n) else Char.ofNat (87 + n)

/-- Fixed-width lowercase hex rendering, most significant digit first
(model of `'%032x' % value` at width 32). -/
def natToHexPad : Nat → Nat → List Char
  | 0, _ => []
  | w + 1, v => natToHexPad w (v / 16) ++ [toHexChar (v % 16)]

def isBraceChar (c : Char) : Bool :=
  c = '\x7b' || c = '\x7d'

/-- Model of the normalisation CPython's `uuid.UUID(hex=s)` performs before
parsing: drop `urn:` and `uuid:` markers, strip surrounding braces, drop dashes. -/
def pyUUIDHex (l : List Char) : List Char :=
  let a := removeAll ("urn:".data) l
  let b := removeAll ("uuid:".data) a
  let c := ((b.dropWhile isBraceChar).reverse.dropWhile isBraceChar).reverse
  c.filter (fun ch => ch ≠ '-')

/-- Canonical serialisation `str(UUID(int=v))`: 32 lowercase hex digits grouped
8-4-4-4-12. -/
def uuidCanonical (v : Nat) : List Char :=
  let d := natToHexPad 32 v
  d.take 8 ++ '-' :: (d.drop 8).take 4 ++ '-' :: (d.drop 12).take 4
    ++ '-' :: (d.drop 16).take 4 ++ '-' :: d.drop 20

/-- Embeds `_is_canonical_uuid`: parse with `uuid.UUID` and require the
re-serialisation to equal the input.  (CPython's `int(hex, 16)` also tolerates
signs, underscores and surrounding whitespace; such inputs can never equal the
canonical re-serialisation, so requiring plain hex digits here is extensionally
faithful.) -/
def _is_canonical_uuid (l : List Char) : Bool :=
  let hx := pyUUIDHex l
  (hx.length == 32 && hx.all isHexDigitChar) && (uuidCanonical (hexValue hx) == l)

/-- Embeds `build_comment_notification_id` (`f"comment-{post_id}-{comment_id}"`). -/
def build_comment_notification_id (post_id comment_id : Int) : String :=
  "comment-" ++ toString post_id ++ "-" ++ toString comment_id

/-- Embeds `build_like_notification_id` (`f"like-{post_id}-{liker_user_id}"`). -/
def build_like_notification_id (post_id : Int) (liker_user_id : String) : String :=
  "like-" ++ toString post_id ++ "-" ++ liker_user_id

/-- Embeds `build_follow_notification_id` (`f"follow-{follower_user_id}"`). -/
def build_follow_notification_id (follower_user_id : String) : String :=
  "follow-" ++ follower_user_id

/-- The legacy like id shape (`like-<postId>`), as rendered by
`legacy_like_notification_id_expression`. -/
def legacy_like_notification_id (post_id : Int) : String :=
  "like-" ++ toString post_id

/-- Body of `is_supported_notification_id` over the character list. -/
def isSupportedCore (l : List Char) : Bool :=
  if pyStartsWith "comment-".data l then
    match splitMax '-' 2 l with
    | [_pre, postId, commentId] =>
      _is_positive_integer postId && _is_positive_integer commentId
    | _ => false
  else if pyStartsWith "follow-".data l then
    _is_canonical_uuid (pyDropLead "follow-".data l)
  else if pyStartsWith "like-".data l then
    let payload := pyDropLead "like-".data l
    if payload.isEmpty then false
    else
      match splitMax '-' 1 payload with
      | [postId] => _is_positive_integer postId
      | [postId, liker] => _is_positive_integer postId && _is_canonical_uuid liker
      | _ => false
  else false

/-- Embeds `is_supported_notification_id`. -/
def is_supported_notification_id (s : String) : Bool :=
  isSupportedCore s.data

/-! ### Split lemmas -/

theorem splitFirst_eq_none_iff {sep : Char} {l : List Char} :
    splitFirst sep l = none ↔ sep ∉ l := by
  induction l with
  | nil => simp [splitFirst]
  | cons c cs ih =>
    by_cases hc : c = sep
    · subst hc; simp [splitFirst]
    · simp [splitFirst, hc, Option.map_eq_none', ih, Ne.symm hc]

theorem splitFirst_eq_some {sep : Char} :
    ∀ {l a b : List Char}, splitFirst sep l = some (a, b) →
      l = a ++ sep :: b ∧ sep ∉ a := by
  intro l
  induction l with
  | nil => intro a b h; simp [splitFirst] at h
  | cons c cs ih =>
    intro a b h
    rw [splitFirst] at h
    split at h
    · rename_i hc
      rw [Option.some.injEq, Prod.mk.injEq] at h
      obtain ⟨ha, hb⟩ := h
      subst ha; subst hb; subst hc
      exact ⟨rfl, by simp⟩
    · rename_i hc
      match hsf : splitFirst sep cs with
      | none => rw [hsf] at h; simp at h
      | some (p, q) =>
        rw [hsf] at h
        simp only [Option.map_some'] at h
        rw [Option.some.injEq, Prod.mk.injEq] at h
        obtain ⟨ha, hb⟩ := h
        subst hb
        obtain ⟨hl, hna⟩ := ih hsf
        subst ha
        constructor
        · simp [hl]
        · simp [hna, Ne.symm hc]

theorem splitFirst_append {sep : Char} :
    ∀ {a : List Char}, sep ∉ a → ∀ b, splitFirst sep (a ++ sep :: b) = some (a, b) := by
  intro a
  induction a with
  | nil => intro _ b; simp [splitFirst]
  | cons c cs ih =>
    intro hna b
    have hc : ¬ c = sep := by
      intro hc; exact hna (by simp [hc])
    have hcs : sep ∉ cs := by
      intro hm; exact hna (by simp [hm])
    simp [splitFirst, hc, ih hcs b]

theorem splitFull_ne_nil {sep : Char} {l : List Char} : splitFull sep l ≠ [] := by
  rw [splitFull]
  split <;> simp

/-- A dash-containing segment is never a positive-integer segment. -/
theorem posInt_false_of_dash {b : List Char} (h : '-' ∈ b) :
    _is_positive_integer b = false := by
  unfold _is_positive_integer
  have : ¬ b.all (fun c => c.isDigit) = true := by
    rw [List.all_eq_true]
    intro hall
    have := hall '-' h
    simp at this
  simp only [Bool.and_eq_false_iff]
  left
  right
  exact Bool.eq_false_iff.mpr this

/-! ### C3: the spec-side shape predicate, written from the spec's wording -/

/-- The three supported shapes as the specification states them:
`comment-` followed by exactly two `-`-delimited positive-integer segments
(full split of the remainder), `follow-` followed by a canonical-form UUID,
`like-` whose first segment is a positive integer followed by either nothing
(legacy) or a canonical UUID (current). -/
def specSupportedShape (l : List Char) : Bool :=
  (pyStartsWith "comment-".data l &&
    (match splitFull '-' (l.drop 8) with
     | [a, b] => _is_positive_integer a && _is_positive_integer b
     | _ => false)) ||
  (pyStartsWith "follow-".data l && _is_canonical_uuid (l.drop 7)) ||
  (pyStartsWith "like-".data l &&
    (match splitFirst '-' (l.drop 5) with
     | none => _is_positive_integer (l.drop 5)
     | some (a, u) => _is_positive_integer a && _is_canonical_uuid u))

theorem splitMax_succ (sep : Char) (fuel : Nat) (l : List Char) :
    splitMax sep (fuel + 1) l =
      match splitFirst sep l with
      | none => [l]
      | some (a, b) => a :: splitMax sep fuel b := rfl

theorem splitFull_none {sep : Char} {l : List Char} (h : splitFirst sep l = none) :
    splitFull sep l = [l] := by
  rw [splitFull]
  split
  · rfl
  · rename_i a b heq
    rw [h] at heq
    exact absurd heq (by simp)

theorem splitFull_some {sep : Char} {l a b : List Char} (h : splitFirst sep l = some (a, b)) :
    splitFull sep l = a :: splitFull sep b := by
  rw [splitFull]
  split
  · rename_i heq
    rw [h] at heq
    exact absurd heq (by simp)
  · rename_i p q heq
    rw [h] at heq
    rw [Option.some.injEq, Prod.mk.injEq] at heq
    obtain ⟨hp, hq⟩ := heq
    rw [hp, hq]

theorem isSupportedCore_comment (rest : List Char) :
    isSupportedCore ("comment-".data ++ rest) =
      specSupportedShape ("comment-".data ++ rest) := by
  have hpre : pyStartsWith "comment-".data ("comment-".data ++ rest) = true := by
    simp [pyStartsWith, List.isPrefixOf_iff_prefix]
  have hfol : pyStartsWith "follow-".data ("comment-".data ++ rest) = false := rfl
  have hlik : pyStartsWith "like-".data ("comment-".data ++ rest) = false := rfl
  have hsf1 : splitFirst '-' ("comment-".data ++ rest) = some ("comment".data, rest) := by
    have hshape : ("comment-".data ++ rest) = "comment".data ++ '-' :: rest := rfl
    rw [hshape]
    exact splitFirst_append (by decide) rest
  have hdrop : ("comment-".data ++ rest).drop 8 = rest := by
    have hlen : ("comment-".data).length = 8 := rfl
    rw [← hlen, List.drop_left]
  have hm2 : splitMax '-' 2 ("comment-".data ++ rest) =
      "comment".data :: splitMax '-' 1 rest := by
    rw [show (2 : Nat) = 1 + 1 from rfl, splitMax_succ, hsf1]
  unfold isSupportedCore specSupportedShape
  rw [hpre, hfol, hlik, hdrop]
  simp only [if_true, Bool.true_and, Bool.false_and, Bool.or_false, Bool.false_or]
  rw [hm2]
  cases hsf2 : splitFirst '-' rest with
  | none =>
    have hm1 : splitMax '-' 1 rest = [rest] := by
      rw [show (1 : Nat) = 0 + 1 from rfl, splitMax_succ, hsf2]
    rw [hm1, splitFull_none hsf2]
  | some p =>
    obtain ⟨a, b⟩ := p
    have hm1 : splitMax '-' 1 rest = [a, b] := by
      rw [show (1 : Nat) = 0 + 1 from rfl, splitMax_succ, hsf2]
      rfl
    rw [hm1, splitFull_some hsf2]
    cases hsf3 : splitFirst '-' b with
    | none =>
      rw [splitFull_none hsf3]
    | some q =>
      obtain ⟨c2, d2⟩ := q
      rw [splitFull_some hsf3]
      have hdash : '-' ∈ b := by
        obtain ⟨hb, _⟩ := splitFirst_eq_some hsf3
        rw [hb]
        simp
      have hb0 := posInt_false_of_dash hdash
      have hne := @splitFull_ne_nil '-' d2
      cases hfd : splitFull '-' d2 with
      | nil => exact absurd hfd hne
      | cons x xs =>
        simp [hb0]

theorem isSupportedCore_follow (rest : List Char) :
    isSupportedCore ("follow-".data ++ rest) =
      specSupportedShape ("follow-".data ++ rest) := by
  have hcom : pyStartsWith "comment-".data ("follow-".data ++ rest) = false := rfl
  have hpre : pyStartsWith "follow-".data ("follow-".data ++ rest) = true := by
    simp [pyStartsWith, List.isPrefixOf_iff_prefix]
  have hlik : pyStartsWith "like-".data ("follow-".data ++ rest) = false := rfl
  have hdrop : ("follow-".data ++ rest).drop 7 = rest := by
    have hlen : ("follow-".data).length = 7 := rfl
    rw [← hlen, List.drop_left]
  have hlead : pyDropLead "follow-".data ("follow-".data ++ rest) = rest := by
    unfold pyDropLead
    rw [if_pos]
    · exact hdrop
    · simp [List.isPrefixOf_iff_prefix]
  unfold isSupportedCore specSupportedShape
  rw [hpre, hcom, hlik, hdrop, hlead]
  simp

theorem isSupportedCore_like (rest : List Char) :
    isSupportedCore ("like-".data ++ rest) =
      specSupportedShape ("like-".data ++ rest) := by
  have hcom : pyStartsWith "comment-".data ("like-".data ++ rest) = false := rfl
  have hfol : pyStartsWith "follow-".data ("like-".data ++ rest) = false := rfl
  have hpre : pyStartsWith "like-".data ("like-".data ++ rest) = true := by
    simp [pyStartsWith, List.isPrefixOf_iff_prefix]
  have hdrop : ("like-".data ++ rest).drop 5 = rest := by
    have hlen : ("like-".data).length = 5 := rfl
    rw [← hlen, List.drop_left]
  have hlead : pyDropLead "like-".data ("like-".data ++ rest) = rest := by
    unfold pyDropLead
    rw [if_pos]
    · have hlen : ("like-".data).length = 5 := rfl
      rw [hlen]
      exact hdrop
    · simp [List.isPrefixOf_iff_prefix]
  unfold isSupportedCore specSupportedShape
  rw [hpre, hcom, hfol, hdrop, hlead]
  simp only [if_true, Bool.true_and, Bool.false_and, Bool.or_false, Bool.false_or,
    if_false, Bool.false_eq_true]
  cases hrest : rest with
  | nil =>
    simp [splitFirst, _is_positive_integer]
  | cons c cs =>
    have hne : ((c :: cs : List Char).isEmpty) = false := rfl
    rw [hne]
    simp only [Bool.false_eq_true, if_false]
    cases hsf : splitFirst '-' (c :: cs) with
    | none =>
      have hm1 : splitMax '-' 1 (c :: cs) = [c :: cs] := by
        rw [show (1 : Nat) = 0 + 1 from rfl, splitMax_succ, hsf]
      rw [hm1]
    | some p =>
      obtain ⟨a, u⟩ := p
      have hm1 : splitMax '-' 1 (c :: cs) = [a, u] := by
        rw [show (1 : Nat) = 0 + 1 from rfl, splitMax_succ, hsf]
        rfl
      rw [hm1]

theorem isSupportedCore_eq_spec (l : List Char) :
    isSupportedCore l = specSupportedShape l := by
  by_cases hc : pyStartsWith "comment-".data l = true
  · obtain ⟨rest, hrest⟩ := (List.isPrefixOf_iff_prefix.mp hc : "comment-".data <+: l)
    rw [← hrest]
    exact isSupportedCore_comment rest
  · by_cases hf : pyStartsWith "follow-".data l = true
    · obtain ⟨rest, hrest⟩ := (List.isPrefixOf_iff_prefix.mp hf : "follow-".data <+: l)
      rw [← hrest]
      exact isSupportedCore_follow rest
    · by_cases hk : pyStartsWith "like-".data l = true
      · obtain ⟨rest, hrest⟩ := (List.isPrefixOf_iff_prefix.mp hk : "like-".data <+: l)
        rw [← hrest]
        exact isSupportedCore_like rest
      · rw [Bool.not_eq_true] at hc hf hk
        unfold isSupportedCore specSupportedShape
        rw [hc, hf, hk]
        simp

/-- C3: `is_supported_notification_id` accepts a string iff it has one of the three
supported shapes — `comment-` plus exactly two `-`-delimited positive-integer
segments, `follow-` plus a canonical-form UUID, or `like-` plus a positive-integer
segment followed by nothing (legacy) or by a canonical UUID (current); every other
string, including non-canonical UUID casing or non-numeric segments, is rejected.
`specSupportedShape` states the spec's wording; the proof shows the code's validator
is extensionally equal to it. -/
theorem supported_id_iff_spec_shape (s : String) :
    is_supported_notification_id s = specSupportedShape s.data :=
  isSupportedCore_eq_spec s.data

/-- C9: the validator accepts non-canonical decimal segments such as
`comment-01-2` and `like-007`, which no builder ever produces, so the accepted set
strictly exceeds the image of `build_comment_notification_id`,
`build_like_notification_id` and `build_follow_notification_id`; segments that are
`0`, signed, or non-digit are still rejected.  (The spec's `legacyLikeId` is
read-compatibility only and is never used to produce ids.) -/
theorem validator_accepts_more_than_builders :
    is_supported_notification_id "comment-01-2" = true ∧
    is_supported_notification_id "like-007" = true ∧
    (∀ p c : Int, build_comment_notification_id p c ≠ "like-007") ∧
    (∀ (p : Int) (w : String), build_like_notification_id p w ≠ "like-007") ∧
    (∀ w : String, build_follow_notification_id w ≠ "like-007") ∧
    is_supported_notification_id "comment-0-1" = false ∧
    is_supported_notification_id "like-0" = false ∧
    is_supported_notification_id "like--7" = false ∧
    is_supported_notification_id "like-a" = false := by
  refine ⟨by decide, by decide, ?_, ?_, ?_, by decide, by decide, by decide, by decide⟩
  · intro p c h
    have h2 : ("comment-" ++ toString p ++ "-" ++ toString c).data = "like-007".data :=
      congrArg String.data h
    rw [String.data_append, String.data_append, String.data_append] at h2
    have hc : ("comment-".data) = 'c' :: "omment-".data := rfl
    have hl : ("like-007".data) = 'l' :: "ike-007".data := rfl
    rw [hc, hl] at h2
    simp only [List.cons_append, List.append_assoc] at h2
    have : 'c' = 'l' := List.head_eq_of_cons_eq h2
    exact absurd this (by decide)
  · intro p w h
    have h2 : ("like-" ++ toString p ++ "-" ++ w).data = "like-007".data :=
      congrArg String.data h
    rw [String.data_append, String.data_append, String.data_append] at h2
    have hshape : ("like-007".data) = "like-".data ++ ['0', '0', '7'] := rfl
    rw [hshape] at h2
    simp only [List.append_assoc] at h2
    have h3 : (toString p).data ++ ("-".data ++ w.data) = ['0', '0', '7'] :=
      List.append_cancel_left h2
    have hdash : '-' ∈ (toString p).data ++ ("-".data ++ w.data) := by
      simp [String.data]
    rw [h3] at hdash
    simp at hdash
  · intro w h
    have h2 : ("follow-" ++ w).data = "like-007".data := congrArg String.data h
    rw [String.data_append] at h2
    have hf : ("follow-".data) = 'f' :: "ollow-".data := rfl
    have hl : ("like-007".data) = 'l' :: "ike-007".data := rfl
    rw [hf, hl] at h2
    simp only [List.cons_append] at h2
    have : 'f' = 'l' := List.head_eq_of_cons_eq h2
    exact absurd this (by decide)

/-! ### Descending `(dismissed_at, id)` ordering used by every ledger query -/

/-- Lexicographic order on `(dismissedAt, id)` keys. -/
def pairLe (k1 k2 : Nat × Nat) : Prop :=
  k1.1 < k2.1 ∨ (k1.1 = k2.1 ∧ k1.2 ≤ k2.2)

def pairLt (k1 k2 : Nat × Nat) : Prop :=
  k1.1 < k2.1 ∨ (k1.1 = k2.1 ∧ k1.2 < k2.2)

instance : DecidableRel pairLe := fun k1 k2 => by unfold pairLe; exact inferInstance

instance : DecidableRel pairLt := fun k1 k2 => by unfold pairLt; exact inferInstance

theorem pairLe_total (k1 k2 : Nat × Nat) : pairLe k1 k2 ∨ pairLe k2 k1 := by
  unfold pairLe; omega

theorem pairLe_trans {k1 k2 k3 : Nat × Nat} (h1 : pairLe k1 k2) (h2 : pairLe k2 k3) :
    pairLe k1 k3 := by
  unfold pairLe at *; omega

theorem pairLt_asymm {k1 k2 : Nat × Nat} (h1 : pairLt k1 k2) (h2 : pairLt k2 k1) : False := by
  unfold pairLt at *; omega

theorem pairLt_of_le_of_ne {k1 k2 : Nat × Nat} (h : pairLe k1 k2) (hne : k1 ≠ k2) :
    pairLt k1 k2 := by
  have hne' : ¬ (k1.1 = k2.1 ∧ k1.2 = k2.2) := by
    intro hc
    exact hne (Prod.ext hc.1 hc.2)
  unfold pairLe at h
  unfold pairLt
  omega

theorem pairLt_le_absurd {k1 k2 : Nat × Nat} (h1 : pairLt k1 k2) (h2 : pairLe k2 k1) : False := by
  unfold pairLt at h1
  unfold pairLe at h2
  omega

section KeySort

variable {α : Type} (key : α → Nat × Nat)

/-- `a` sorts before `b` under `ORDER BY key DESC`. -/
def keyGe (a b : α) : Prop := pairLe (key b) (key a)

instance : DecidableRel (keyGe key) := fun a b => by unfold keyGe; exact inferInstance

/-- The list as an SQL `ORDER BY key DESC` returns it. -/
def sortByKey (l : List α) : List α := List.insertionSort (keyGe key) l

theorem sortByKey_perm (l : List α) : List.Perm (sortByKey key l) l :=
  List.perm_insertionSort _ l

theorem sortByKey_sorted (l : List α) : List.Sorted (keyGe key) (sortByKey key l) := by
  haveI : IsTotal α (keyGe key) := ⟨fun a b => pairLe_total (key b) (key a)⟩
  haveI : IsTrans α (keyGe key) := ⟨fun _ _ _ h1 h2 => pairLe_trans h2 h1⟩
  exact List.sorted_insertionSort _ l

/-- All keys pairwise distinct. -/
def KeysDistinct (l : List α) : Prop := l.Pairwise (fun a b => key a ≠ key b)

theorem keysDistinct_of_perm {l₁ l₂ : List α} (hp : List.Perm l₁ l₂)
    (hd : KeysDistinct key l₁) : KeysDistinct key l₂ :=
  (hp.pairwise_iff (fun h => Ne.symm h)).mp hd

theorem sorted_strict_of_distinct {l : List α} (hs : List.Sorted (keyGe key) l)
    (hd : KeysDistinct key l) :
    l.Pairwise (fun a b => pairLt (key b) (key a)) := by
  refine (List.Pairwise.and hs hd).imp ?_
  rintro a b ⟨hge, hne⟩
  exact pairLt_of_le_of_ne hge (fun h => hne h.symm)

theorem eq_of_perm_of_sorted_distinct {l₁ l₂ : List α} (hp : List.Perm l₁ l₂)
    (hs₁ : List.Sorted (keyGe key) l₁) (hs₂ : List.Sorted (keyGe key) l₂)
    (hd : KeysDistinct key l₁) : l₁ = l₂ := by
  haveI : IsAntisymm α (fun a b => pairLt (key b) (key a)) :=
    ⟨fun _ _ h1 h2 => (pairLt_asymm h1 h2).elim⟩
  exact List.eq_of_perm_of_sorted hp
    (sorted_strict_of_distinct key hs₁ hd)
    (sorted_strict_of_distinct key hs₂ (keysDistinct_of_perm key hp hd))

theorem sortByKey_eq_self_of_sorted {l : List α} (hs : List.Sorted (keyGe key) l)
    (hd : KeysDistinct key l) : sortByKey key l = l :=
  eq_of_perm_of_sorted_distinct key (sortByKey_perm key l) (sortByKey_sorted key l) hs
    (keysDistinct_of_perm key (sortByKey_perm key l).symm hd)

/-- An element whose key strictly dominates every other key never ends up past the
head of the descending sort. -/
theorem not_mem_drop_sortByKey_of_strict_max {l : List α} {x : α} (hx : x ∈ l)
    (hmax : ∀ y ∈ l, key y ≠ key x → pairLt (key y) (key x))
    (hd : KeysDistinct key l) {k : Nat} (hk : 1 ≤ k) :
    x ∉ (sortByKey key l).drop k := by
  intro hmem
  have hperm := sortByKey_perm key l
  have hsort := sortByKey_sorted key l
  have hdist : KeysDistinct key (sortByKey key l) :=
    keysDistinct_of_perm key hperm.symm hd
  cases hsk : sortByKey key l with
  | nil =>
    rw [hsk] at hmem
    simp at hmem
  | cons h t =>
    rw [hsk] at hmem hsort hdist hperm
    obtain ⟨k', rfl⟩ : ∃ k', k = k' + 1 := ⟨k - 1, by omega⟩
    rw [List.drop_succ_cons] at hmem
    have hxt : x ∈ t := List.mem_of_mem_drop hmem
    have hle : keyGe key h x := List.rel_of_sorted_cons hsort x hxt
    have hhl : h ∈ l := hperm.subset (by simp)
    by_cases hkey : key h = key x
    · have := (List.pairwise_cons.mp hdist).1 x hxt
      exact this hkey
    · exact pairLt_le_absurd (hmax h hhl hkey) hle

end KeySort

/-! ### Dismissal ledger model (`services/notifications/dismissals.py`) -/

/-- One `dismissed_notifications` row. -/
structure Row where
  id : Nat
  userId : String
  notificationId : String
  dismissedAt : Nat
deriving DecidableEq

/-- The ledger table plus the auto-increment counter. -/
structure Ledger where
  rows : List Row
  nextId : Nat
deriving DecidableEq

def MAX_NOTIFICATION_ID_LENGTH : Nat := 191
def MAX_DISMISSED_NOTIFICATIONS : Nat := 500
def PRUNE_BATCH_SIZE : Nat := 100
def MAX_BULK_DISMISS_NOTIFICATIONS : Nat := 64

def rowKey (r : Row) : Nat × Nat := (r.dismissedAt, r.id)

/-- The rows of one user, in table order. -/
def userRows (rows : List Row) (u : String) : List Row :=
  rows.filter (fun r => r.userId == u)

/-- Stale ids selected by `_delete_stale_dismissed_notifications_batch`:
order the user's rows by `(dismissed_at DESC, id DESC)`, skip `keep`, take `batch`. -/
def staleIdsBatch (rows : List Row) (u : String) (keep batch : Nat) : List Nat :=
  ((((sortByKey rowKey (userRows rows u))).drop keep).take batch).map Row.id

/-- Embeds `_delete_stale_dismissed_notifications_batch`: delete exactly the stale
id set, return the SQL rowcount.  (The Python function raises for
`batch_size <= 0`; theorems about it assume `0 < batch`.) -/
def deleteBatch (st : Ledger) (u : String) (keep batch : Nat) : Nat × Ledger :=
  let stale := staleIdsBatch st.rows u keep batch
  let rows' := st.rows.filter (fun r => !(stale.contains r.id))
  (st.rows.length - rows'.length, ⟨rows', st.nextId⟩)

/-- Embeds `_prune_dismissed_notifications_once` (one batch with service defaults). -/
def pruneOnce (st : Ledger) (u : String) : Nat × Ledger :=
  deleteBatch st u MAX_DISMISSED_NOTIFICATIONS PRUNE_BATCH_SIZE

/-- Embeds `_run_best_effort_prune`'s state effect on the happy path (the error
branch only logs and rolls back, leaving the pre-prune state; a pure model has no
failing store). -/
def bestEffortPrune (st : Ledger) (u : String) : Ledger :=
  (pruneOnce st u).2

inductive DismissError
  | validationError
deriving DecidableEq

/-- The `{notificationId, dismissedAt}` payload of a dismiss response. -/
structure DismissResponse where
  notification_id : String
  dismissed_at : Nat
deriving DecidableEq

def findDismissal (rows : List Row) (u nid : String) : Option Row :=
  rows.find? (fun r => r.userId == u && r.notificationId == nid)

/-- Embeds `dismiss_notification_for_user`: validate, return the existing row
unchanged, or insert (`dismissed_at` = the store clock `now`), commit and run the
best-effort prune.  The sequential model has no concurrent writer, so the
`IntegrityError` re-read branch is unreachable. -/
def dismiss_notification_for_user (st : Ledger) (u nid : String) (now : Nat) :
    Except DismissError DismissResponse × Ledger :=
  let n := pyStrip nid
  if n = "" then (.error .validationError, st)
  else if MAX_NOTIFICATION_ID_LENGTH < n.length then (.error .validationError, st)
  else if !(is_supported_notification_id n) then (.error .validationError, st)
  else
    match findDismissal st.rows u n with
    | some r => (.ok ⟨r.notificationId, r.dismissedAt⟩, st)
    | none =>
      let row : Row := ⟨st.nextId, u, n, now⟩
      let st₁ : Ledger := ⟨st.rows ++ [row], st.nextId + 1⟩
      (.ok ⟨n, now⟩, bestEffortPrune st₁ u)

/-- The normalisation loop of `dismiss_notifications_for_user`: strip each id,
validate it, and de-duplicate preserving first-occurrence order (`seen` holds the
accepted ids in reverse). -/
def normalizeBulkGo : List String → List String → Except DismissError (List String)
  | [], seen => .ok seen.reverse
  | rawId :: rest, seen =>
    let n := pyStrip rawId
    if n = "" then .error .validationError
    else if MAX_NOTIFICATION_ID_LENGTH < n.length then .error .validationError
    else if !(is_supported_notification_id n) then .error .validationError
    else if seen.contains n then normalizeBulkGo rest seen
    else normalizeBulkGo rest (n :: seen)

/-- Embeds `dismiss_notifications_for_user` (bulk dismiss): size checks, per-id
validation and dedup, then one batch insert of the ids not already present and a
best-effort prune; returns `len(normalized_ids)` regardless of how many rows were
inserted.  (As above, the concurrent-conflict retry branch is unreachable in the
sequential model.) -/
def dismiss_notifications_for_user (st : Ledger) (u : String) (ids : List String)
    (now : Nat) : Except DismissError Nat × Ledger :=
  if ids.length = 0 then (.error .validationError, st)
  else if MAX_BULK_DISMISS_NOTIFICATIONS < ids.length then (.error .validationError, st)
  else
    match normalizeBulkGo ids [] with
    | .error e => (.error e, st)
    | .ok normalized =>
      let existing := (st.rows.filter
        (fun r => r.userId == u && normalized.contains r.notificationId)).map
          Row.notificationId
      let missing := normalized.filter (fun nid => !(existing.contains nid))
      if missing.isEmpty then (.ok normalized.length, st)
      else
        let newRows := missing.enum.map (fun p => Row.mk (st.nextId + p.1) u p.2 now)
        let st₁ : Ledger := ⟨st.rows ++ newRows, st.nextId + missing.length⟩
        (.ok normalized.length, bestEffortPrune st₁ u)

theorem deleteBatch_length (st : Ledger) (u : String) (keep batch : Nat) :
    ((deleteBatch st u keep batch).2).rows.length + (deleteBatch st u keep batch).1 =
      st.rows.length := by
  unfold deleteBatch
  have hle : (st.rows.filter
      (fun r => !((staleIdsBatch st.rows u keep batch).contains r.id))).length ≤
      st.rows.length := List.length_filter_le _ _
  simp only []
  omega

/-- Embeds the `while True` loop body of `prune_dismissed_notifications_for_user`. -/
def pruneLoop (st : Ledger) (u : String) (keep batch : Nat) (maxDel : Option Nat)
    (total : Nat) : Nat × Ledger :=
  match maxDel with
  | some m =>
    if m ≤ total then (total, st)
    else
      match hres : deleteBatch st u keep (min batch (m - total)) with
      | (d, st') =>
        if d = 0 then (total, st')
        else pruneLoop st' u keep batch (some m) (total + d)
  | none =>
    match hres : deleteBatch st u keep batch with
    | (d, st') =>
      if d = 0 then (total, st')
      else pruneLoop st' u keep batch none (total + d)
termination_by st.rows.length
decreasing_by
  · have hlen := deleteBatch_length st u keep (min batch (m - total))
    rw [hres] at hlen
    simp at hlen
    omega
  · have hlen := deleteBatch_length st u keep batch
    rw [hres] at hlen
    simp at hlen
    omega

/-- Embeds `prune_dismissed_notifications_for_user` (the Python function raises for
`keep_limit < 0` — impossible over `Nat` — and for `batch_size <= 0`; theorems
assume `0 < batch`).  `max_deleted == 0` returns immediately. -/
def prune_dismissed_notifications_for_user (st : Ledger) (u : String)
    (keep batch : Nat) (maxDel : Option Nat) : Nat × Ledger :=
  if maxDel = some 0 then (0, st) else pruneLoop st u keep batch maxDel 0

/-! ### Effect of one delete batch -/

theorem rowKey_ne_of_id_ne {a b : Row} (h : a.id ≠ b.id) : rowKey a ≠ rowKey b := by
  intro hk
  exact h (congrArg Prod.snd hk)

theorem keysDistinct_of_ids_nodup {l : List Row} (h : (l.map Row.id).Nodup) :
    KeysDistinct rowKey l := by
  have hp : l.Pairwise (fun a b => a.id ≠ b.id) := List.pairwise_map.mp h
  exact hp.imp (fun hab => rowKey_ne_of_id_ne hab)

theorem row_eq_of_id_eq {rows : List Row} (h : (rows.map Row.id).Nodup)
    {a b : Row} (ha : a ∈ rows) (hb : b ∈ rows) (hid : a.id = b.id) : a = b :=
  List.inj_on_of_nodup_map h ha hb hid

theorem ids_nodup_userRows {rows : List Row} (u : String)
    (h : (rows.map Row.id).Nodup) : ((userRows rows u).map Row.id).Nodup :=
  h.sublist ((List.filter_sublist rows).map Row.id)

/-- What one `_delete_stale_dismissed_notifications_batch` does: it deletes exactly
`min batch (count - keep)` rows, and the user's surviving rows are — up to table
order — the top `keep` of the descending sort plus everything past the first
`keep + batch`. -/
theorem deleteBatch_spec (st : Ledger) (u : String) (keep batch : Nat)
    (hnd : (st.rows.map Row.id).Nodup) :
    (deleteBatch st u keep batch).1 =
        min batch ((userRows st.rows u).length - keep) ∧
    List.Perm (userRows ((deleteBatch st u keep batch).2).rows u)
      ((sortByKey rowKey (userRows st.rows u)).take keep ++
        (sortByKey rowKey (userRows st.rows u)).drop (keep + batch)) ∧
    ((((deleteBatch st u keep batch).2).rows.map Row.id)).Nodup ∧
    ((deleteBatch st u keep batch).2).nextId = st.nextId := by
  classical
  have hq : userRows st.rows u = st.rows.filter (fun r => r.userId == u) := rfl
  set q := userRows st.rows u with hqdef
  set sorted := sortByKey rowKey q with hsorteddef
  set B := (sorted.drop keep).take batch with hBdef
  have hstale : staleIdsBatch st.rows u keep batch = B.map Row.id := rfl
  have hdb : deleteBatch st u keep batch =
      (st.rows.length -
        (st.rows.filter (fun r => !((B.map Row.id).contains r.id))).length,
       ⟨st.rows.filter (fun r => !((B.map Row.id).contains r.id)), st.nextId⟩) := by
    unfold deleteBatch
    rw [hstale]
  have hperm : List.Perm sorted q := sortByKey_perm rowKey q
  have hqsub : q.Sublist st.rows := List.filter_sublist st.rows
  have hndrows : st.rows.Nodup := List.Nodup.of_map _ hnd
  have hndq : ((q.map Row.id)).Nodup := hnd.sublist (hqsub.map Row.id)
  have hndsorted_ids : ((sorted.map Row.id)).Nodup :=
    ((hperm.map Row.id).nodup_iff).mpr hndq
  have hndsorted : sorted.Nodup := List.Nodup.of_map _ hndsorted_ids
  have hBsub : B.Sublist sorted :=
    ((sorted.drop keep).take_sublist batch).trans (sorted.drop_sublist keep)
  have hBst : ∀ b ∈ B, b ∈ st.rows := fun b hb =>
    hqsub.subset (hperm.subset (hBsub.subset hb))
  have hpmem : ∀ r ∈ st.rows, (((B.map Row.id).contains r.id) = true ↔ r ∈ B) := by
    intro r hr
    constructor
    · intro hpr
      have hmm : r.id ∈ B.map Row.id := by
        rw [← List.elem_iff]
        exact hpr
      obtain ⟨b, hbB, hbid⟩ := List.mem_map.mp hmm
      have hbr : b = r := row_eq_of_id_eq hnd (hBst b hbB) hr hbid
      rwa [← hbr]
    · intro hrB
      have hmm : r.id ∈ B.map Row.id := List.mem_map_of_mem Row.id hrB
      rw [← List.elem_iff] at hmm
      exact hmm
  have hdel : List.Perm
      (st.rows.filter (fun r => ((B.map Row.id).contains r.id))) B := by
    rw [List.perm_ext_iff_of_nodup (hndrows.filter _) (hndsorted.sublist hBsub)]
    intro x
    simp only [List.mem_filter]
    constructor
    · rintro ⟨hx, hpx⟩
      exact (hpmem x hx).mp hpx
    · intro hxB
      exact ⟨hBst x hxB, (hpmem x (hBst x hxB)).mpr hxB⟩
  have hdel_len :
      (st.rows.filter (fun r => ((B.map Row.id).contains r.id))).length = B.length :=
    hdel.length_eq
  have hpart : st.rows.length =
      (st.rows.filter (fun r => ((B.map Row.id).contains r.id))).length +
      (st.rows.filter (fun r => !((B.map Row.id).contains r.id))).length :=
    List.length_eq_length_filter_add (fun r => ((B.map Row.id).contains r.id))
  have hlenB : B.length = min batch (q.length - keep) := by
    rw [hBdef, List.length_take, List.length_drop, hperm.length_eq]
  refine ⟨?_, ?_, ?_, ?_⟩
  · rw [hdb]
    simp only []
    omega
  · rw [hdb]
    simp only []
    have hcomm : userRows
        (st.rows.filter (fun r => !((B.map Row.id).contains r.id))) u =
        q.filter (fun r => !((B.map Row.id).contains r.id)) := by
      rw [hqdef]
      unfold userRows
      rw [List.filter_comm]
    rw [hcomm]
    have hfperm : List.Perm (q.filter (fun r => !((B.map Row.id).contains r.id)))
        (sorted.filter (fun r => !((B.map Row.id).contains r.id))) :=
      (hperm.filter _).symm
    -- decompose sorted = A ++ B ++ C
    have hsplit1 : sorted = sorted.take keep ++ sorted.drop keep :=
      (List.take_append_drop keep sorted).symm
    have hsplit2 : sorted.drop keep = B ++ sorted.drop (keep + batch) := by
      have h1 : sorted.drop keep =
          (sorted.drop keep).take batch ++ (sorted.drop keep).drop batch :=
        (List.take_append_drop batch (sorted.drop keep)).symm
      rw [List.drop_drop] at h1
      exact h1
    set A := sorted.take keep with hAdef
    set C := sorted.drop (keep + batch) with hCdef
    have hdecomp : sorted = A ++ (B ++ C) := by
      rw [hsplit1, hsplit2]
    have hnd2 : (A ++ (B ++ C)).Nodup := hdecomp ▸ hndsorted
    have hdisjA : A.Disjoint (B ++ C) := ((List.nodup_append).mp hnd2).2.2
    have hndBC : (B ++ C).Nodup := ((List.nodup_append).mp hnd2).2.1
    have hdisjBC : B.Disjoint C := ((List.nodup_append).mp hndBC).2.2
    have hfA : A.filter (fun r => !((B.map Row.id).contains r.id)) = A := by
      rw [List.filter_eq_self]
      intro a haA
      have haS : a ∈ sorted := hdecomp ▸ List.mem_append_left _ haA
      have hnotmem : a.id ∉ B.map Row.id := by
        intro hmm
        obtain ⟨b, hbB, hbid⟩ := List.mem_map.mp hmm
        have hbS : b ∈ sorted := hBsub.subset hbB
        have hba : b = a := row_eq_of_id_eq hndsorted_ids hbS haS hbid
        exact hdisjA haA (List.mem_append_left _ (hba ▸ hbB))
      simp only [Bool.not_eq_true']
      exact Bool.eq_false_iff.mpr (fun h => hnotmem (List.elem_iff.mp h))
    have hfB : B.filter (fun r => !((B.map Row.id).contains r.id)) = [] := by
      rw [List.filter_eq_nil_iff]
      intro b hbB
      simp
      exact ⟨b, hbB, rfl⟩
    have hfC : C.filter (fun r => !((B.map Row.id).contains r.id)) = C := by
      rw [List.filter_eq_self]
      intro c hcC
      have hcS : c ∈ sorted :=
        hdecomp ▸ List.mem_append_right _ (List.mem_append_right _ hcC)
      have hnotmem : c.id ∉ B.map Row.id := by
        intro hmm
        obtain ⟨b, hbB, hbid⟩ := List.mem_map.mp hmm
        have hbS : b ∈ sorted := hBsub.subset hbB
        have hbc : b = c := row_eq_of_id_eq hndsorted_ids hbS hcS hbid
        exact hdisjBC (hbc ▸ hbB) hcC
      simp only [Bool.not_eq_true']
      exact Bool.eq_false_iff.mpr (fun h => hnotmem (List.elem_iff.mp h))
    have hfilter_eq : sorted.filter (fun r => !((B.map Row.id).contains r.id)) =
        A ++ C := by
      conv_lhs => rw [hdecomp]
      rw [List.filter_append, List.filter_append, hfA, hfB, hfC]
      simp
    refine hfperm.trans ?_
    rw [hfilter_eq]
  · rw [hdb]
    exact hnd.sublist ((List.filter_sublist st.rows).map Row.id)
  · rw [hdb]

theorem pruneLoop_none_eq (st : Ledger) (u : String) (keep batch total d : Nat)
    (st' : Ledger) (hres : deleteBatch st u keep batch = (d, st')) :
    pruneLoop st u keep batch none total =
      if d = 0 then (total, st') else pruneLoop st' u keep batch none (total + d) := by
  rw [pruneLoop]
  split
  rename_i d2 st2 heq
  rw [hres, Prod.mk.injEq] at heq
  obtain ⟨h1, h2⟩ := heq
  subst h1
  subst h2
  rfl

/-- Running the prune loop with no delete cap: it terminates, deletes everything
past the `keep` most recent rows of the user, and the surviving user rows are the
top `keep` of the descending `(dismissedAt, id)` sort. -/
theorem pruneLoop_none_spec (u : String) (keep batch : Nat) (hb : 0 < batch) :
    ∀ n (st : Ledger), st.rows.length = n → (st.rows.map Row.id).Nodup → ∀ total,
      (pruneLoop st u keep batch none total).1 =
          total + ((userRows st.rows u).length - keep) ∧
      List.Perm (userRows ((pruneLoop st u keep batch none total).2).rows u)
        ((sortByKey rowKey (userRows st.rows u)).take keep) ∧
      ((((pruneLoop st u keep batch none total).2).rows.map Row.id)).Nodup := by
  intro n
  induction n using Nat.strong_induction_on with
  | _ n IH =>
    intro st hlen hnd total
    obtain ⟨hd, hpermAC, hnd', hnext⟩ := deleteBatch_spec st u keep batch hnd
    have hdbl := deleteBatch_length st u keep batch
    rcases hres : deleteBatch st u keep batch with ⟨d, st'⟩
    rw [hres] at hd hpermAC hnd' hnext hdbl
    simp only [] at hd hpermAC hnd' hnext hdbl
    rw [pruneLoop_none_eq st u keep batch total d st' hres]
    set q := userRows st.rows u with hq
    set sorted := sortByKey rowKey q with hsorteddef
    have hslen : sorted.length = q.length := (sortByKey_perm rowKey q).length_eq
    by_cases hd0 : d = 0
    · rw [if_pos hd0]
      have hql : q.length ≤ keep := by omega
      refine ⟨by simp only []; omega, ?_, hnd'⟩
      have hdropnil : sorted.drop (keep + batch) = [] := by
        rw [List.drop_eq_nil_iff]
        omega
      rw [hdropnil, List.append_nil] at hpermAC
      exact hpermAC
    · rw [if_neg hd0]
      have hdlt : st'.rows.length < n := by omega
      obtain ⟨ih1, ih2, ih3⟩ := IH st'.rows.length hdlt st' rfl hnd' (total + d)
      have hqlen' : (userRows st'.rows u).length = q.length - d := by
        have hpl := hpermAC.length_eq
        rw [List.length_append, List.length_take, List.length_drop, hslen] at hpl
        omega
      refine ⟨?_, ?_, ih3⟩
      · rw [ih1, hqlen']
        omega
      · have hsubAC : (sorted.take keep ++ sorted.drop (keep + batch)).Sublist sorted := by
          have h1 : (sorted.drop (keep + batch)).Sublist (sorted.drop keep) := by
            rw [← List.drop_drop]
            exact List.drop_sublist _ _
          have h2 : (sorted.take keep ++ sorted.drop (keep + batch)).Sublist
              (sorted.take keep ++ sorted.drop keep) := List.Sublist.append_left h1 _
          rw [List.take_append_drop] at h2
          exact h2
        have hsortAC : sortByKey rowKey (userRows st'.rows u) =
            sorted.take keep ++ sorted.drop (keep + batch) := by
          apply eq_of_perm_of_sorted_distinct rowKey
          · exact (sortByKey_perm rowKey _).trans hpermAC
          · exact sortByKey_sorted rowKey _
          · exact List.Pairwise.sublist hsubAC (sortByKey_sorted rowKey q)
          · apply keysDistinct_of_ids_nodup
            have h1 : ((userRows st'.rows u).map Row.id).Nodup := ids_nodup_userRows u hnd'
            exact (((sortByKey_perm rowKey (userRows st'.rows u)).map Row.id).nodup_iff).mpr h1
        rw [hsortAC] at ih2
        have htake : (sorted.take keep ++ sorted.drop (keep + batch)).take keep =
            sorted.take keep := by
          have hlenA : (sorted.take keep).length = keep := by
            rw [List.length_take]
            omega
          exact List.take_left' hlenA
        rw [htake] at ih2
        exact ih2

/-- C1: dismiss persists a client-supplied id only if it passes the codec
validator — a blank (after trimming), oversized (`> 191` characters) or
structurally invalid id is rejected with the validation error and the ledger state
is returned unchanged; conversely a successful dismissal implies the normalised id
passed every check. -/
theorem dismiss_validation_gate (st : Ledger) (u nid : String) (now : Nat) :
    ((pyStrip nid = "" ∨ MAX_NOTIFICATION_ID_LENGTH < (pyStrip nid).length ∨
        is_supported_notification_id (pyStrip nid) = false) →
      dismiss_notification_for_user st u nid now = (.error .validationError, st)) ∧
    (∀ resp st', dismiss_notification_for_user st u nid now = (.ok resp, st') →
      pyStrip nid ≠ "" ∧ (pyStrip nid).length ≤ MAX_NOTIFICATION_ID_LENGTH ∧
        is_supported_notification_id (pyStrip nid) = true) := by
  constructor
  · intro hbad
    by_cases h0 : pyStrip nid = ""
    · simp [dismiss_notification_for_user, h0]
    · by_cases h1 : MAX_NOTIFICATION_ID_LENGTH < (pyStrip nid).length
      · simp [dismiss_notification_for_user, h0, h1]
      · have h2 : is_supported_notification_id (pyStrip nid) = false := by tauto
        simp [dismiss_notification_for_user, h0, h1, h2]
  · intro resp st' h
    by_cases h0 : pyStrip nid = ""
    · simp [dismiss_notification_for_user, h0] at h
    · by_cases h1 : MAX_NOTIFICATION_ID_LENGTH < (pyStrip nid).length
      · simp [dismiss_notification_for_user, h0, h1] at h
      · by_cases h2 : is_supported_notification_id (pyStrip nid) = true
        · exact ⟨h0, by omega, h2⟩
        · have h2' : is_supported_notification_id (pyStrip nid) = false := by
            simpa using h2
          simp [dismiss_notification_for_user, h0, h1, h2'] at h

/-- Witness for `dismiss_validation_gate` at a structurally invalid id. -/
theorem dismiss_validation_gate_at_invalid_id :
    dismiss_notification_for_user ⟨[], 0⟩ "u1" "like-x" 0 =
      (.error .validationError, ⟨[], 0⟩) :=
  (dismiss_validation_gate ⟨[], 0⟩ "u1" "like-x" 0).1 (Or.inr (Or.inr (by decide)))

theorem normalizeBulkGo_spec :
    ∀ (ids seen : List String),
      (∀ id ∈ ids, pyStrip id ≠ "" ∧
        (pyStrip id).length ≤ MAX_NOTIFICATION_ID_LENGTH ∧
        is_supported_notification_id (pyStrip id) = true) →
      seen.Nodup →
      ∃ L, normalizeBulkGo ids seen = .ok L ∧ L.Nodup ∧
        L.toFinset = seen.toFinset ∪ (ids.map pyStrip).toFinset := by
  intro ids
  induction ids with
  | nil =>
    intro seen _ hs
    exact ⟨seen.reverse, rfl, by simpa using hs, by simp⟩
  | cons a rest ih =>
    intro seen hval hs
    obtain ⟨h0, h1, h2⟩ := hval a (by simp)
    have h1' : ¬ MAX_NOTIFICATION_ID_LENGTH < (pyStrip a).length := by omega
    by_cases hc : seen.contains (pyStrip a)
    · have hmem : pyStrip a ∈ seen := by
        rw [← List.elem_iff]
        exact hc
      have hstep : normalizeBulkGo (a :: rest) seen = normalizeBulkGo rest seen := by
        simp [normalizeBulkGo, h0, h1', h2, hmem]
      obtain ⟨L, hL, hnd, hset⟩ := ih seen (fun id hid => hval id (by simp [hid])) hs
      refine ⟨L, hstep.trans hL, hnd, ?_⟩
      rw [hset]
      ext x
      simp only [Finset.mem_union, List.mem_toFinset, List.map_cons, List.toFinset_cons,
        Finset.mem_insert]
      constructor
      · rintro (hx | hx)
        · exact Or.inl hx
        · exact Or.inr (Or.inr hx)
      · rintro (hx | hx | hx)
        · exact Or.inl hx
        · exact Or.inl (hx ▸ hmem)
        · exact Or.inr hx
    · have hmem : pyStrip a ∉ seen := by
        rw [← List.elem_iff]
        exact hc
      have hstep : normalizeBulkGo (a :: rest) seen =
          normalizeBulkGo rest (pyStrip a :: seen) := by
        simp [normalizeBulkGo, h0, h1', h2, hmem]
      obtain ⟨L, hL, hnd, hset⟩ :=
        ih (pyStrip a :: seen) (fun id hid => hval id (by simp [hid]))
          (List.nodup_cons.mpr ⟨hmem, hs⟩)
      refine ⟨L, hstep.trans hL, hnd, ?_⟩
      rw [hset]
      ext x
      simp only [Finset.mem_union, List.mem_toFinset, List.map_cons, List.toFinset_cons,
        Finset.mem_insert, List.mem_cons]
      tauto

/-- C10: for every valid input list of 1 to 64 ids, bulk dismiss reports exactly
the number of distinct ids after trimming and de-duplication — already-dismissed
ids still count, duplicates count once, and the reported count is independent of
the prior ledger state (hence of how many rows were actually inserted). -/
theorem bulk_dismiss_reports_distinct_count (st : Ledger) (u : String)
    (ids : List String) (now : Nat)
    (hpos : 0 < ids.length) (hmax : ids.length ≤ MAX_BULK_DISMISS_NOTIFICATIONS)
    (hval : ∀ id ∈ ids, pyStrip id ≠ "" ∧
      (pyStrip id).length ≤ MAX_NOTIFICATION_ID_LENGTH ∧
      is_supported_notification_id (pyStrip id) = true) :
    (dismiss_notifications_for_user st u ids now).1 =
      .ok ((ids.map pyStrip).dedup.length) := by
  obtain ⟨L, hL, hnd, hset⟩ := normalizeBulkGo_spec ids [] hval List.nodup_nil
  have hlen0 : ¬ ids.length = 0 := by omega
  have hlen64 : ¬ MAX_BULK_DISMISS_NOTIFICATIONS < ids.length := by omega
  have hcount : L.length = (ids.map pyStrip).dedup.length := by
    have h1 : L.toFinset.card = L.length := List.toFinset_card_of_nodup hnd
    have h2 : L.toFinset = (ids.map pyStrip).toFinset := by
      rw [hset]; simp
    have h3 : (ids.map pyStrip).toFinset.card = (ids.map pyStrip).dedup.length :=
      List.card_toFinset _
    rw [← h1, h2, h3]
  unfold dismiss_notifications_for_user
  rw [if_neg hlen0, if_neg hlen64, hL, ← hcount]
  dsimp only
  split <;> rfl

/-- Witness for `bulk_dismiss_reports_distinct_count`: three ids, one a duplicate
after trimming, one already dismissed — the reported count is 2. -/
theorem bulk_dismiss_count_at_concrete_input :
    (dismiss_notifications_for_user ⟨[⟨0, "u", "like-7", 5⟩], 1⟩ "u"
      ["like-7", " like-7 ", "like-8"] 0).1 = .ok 2 :=
  (bulk_dismiss_reports_distinct_count ⟨[⟨0, "u", "like-7", 5⟩], 1⟩ "u"
    ["like-7", " like-7 ", "like-8"] 0 (by decide) (by decide) (by decide)).trans
    (congrArg Except.ok (by decide))

/-- C6: prune convergence.  For a user with more than `keepLimit` dismissal
records, running `prune_dismissed_notifications_for_user` to completion
(`max_deleted` unbounded) terminates (it is a total function), returns a deleted
count equal to the initial count minus `keepLimit`, and leaves exactly the
`keepLimit` records most recent by `(dismissedAt desc, id desc)`; moreover each
batch deletes at most `batchSize` rows, and a batch that deletes zero rows stops
the loop. -/
theorem prune_converges_to_keep_limit (st : Ledger) (u : String) (keep batch : Nat)
    (hb : 0 < batch) (hnd : (st.rows.map Row.id).Nodup)
    (hover : keep < (userRows st.rows u).length) :
    (prune_dismissed_notifications_for_user st u keep batch none).1 =
        (userRows st.rows u).length - keep ∧
    List.Perm
      (userRows
        ((prune_dismissed_notifications_for_user st u keep batch none).2).rows u)
      ((sortByKey rowKey (userRows st.rows u)).take keep) ∧
    (∀ (st' : Ledger) (u' : String) (k' b' : Nat),
        ((st'.rows.map Row.id)).Nodup → (deleteBatch st' u' k' b').1 ≤ b') ∧
    (∀ (s' : Ledger) (t d : Nat) (s2 : Ledger),
        deleteBatch s' u keep batch = (d, s2) → d = 0 →
        pruneLoop s' u keep batch none t = (t, s2)) := by
  have hmain := pruneLoop_none_spec u keep batch hb st.rows.length st rfl hnd 0
  have hunfold : prune_dismissed_notifications_for_user st u keep batch none =
      pruneLoop st u keep batch none 0 := by
    unfold prune_dismissed_notifications_for_user
    rw [if_neg (by simp)]
  refine ⟨?_, ?_, ?_, ?_⟩
  · rw [hunfold, hmain.1]
    omega
  · rw [hunfold]
    exact hmain.2.1
  · intro st' u' k' b' hnd'
    have := (deleteBatch_spec st' u' k' b' hnd').1
    omega
  · intro s' t d s2 hres hd0
    rw [pruneLoop_none_eq s' u keep batch t d s2 hres, if_pos hd0]

/-- Witness for `prune_converges_to_keep_limit`: three rows, `keepLimit = 1`,
`batchSize = 1` — two batches delete one row each, the most recent row survives. -/
theorem prune_convergence_at_concrete_input :
    (prune_dismissed_notifications_for_user
      ⟨[⟨0, "u", "like-1", 10⟩, ⟨1, "u", "like-2", 20⟩, ⟨2, "u", "like-3", 5⟩], 3⟩
      "u" 1 1 none).1 = 2 :=
  ((prune_converges_to_keep_limit
    ⟨[⟨0, "u", "like-1", 10⟩, ⟨1, "u", "like-2", 20⟩, ⟨2, "u", "like-3", 5⟩], 3⟩
    "u" 1 1 (by decide) (by decide) (by decide)).1).trans (by decide)

/-! ### C2: idempotent dismiss -/

theorem find?_eq_some_of_unique {α : Type} {p : α → Bool} :
    ∀ {l : List α} {x : α}, x ∈ l → p x = true →
      (∀ y ∈ l, p y = true → y = x) → l.find? p = some x := by
  intro l
  induction l with
  | nil =>
    intro x hx _ _
    simp at hx
  | cons h t ih =>
    intro x hx hpx huniq
    by_cases hph : p h = true
    · have hhx : h = x := huniq h (by simp) hph
      rw [List.find?_cons_of_pos _ hph, hhx]
    · rw [List.find?_cons_of_neg _ (by simpa using hph)]
      have hxt : x ∈ t := by
        rcases List.mem_cons.mp hx with h1 | h1
        · subst h1; exact absurd hpx hph
        · exact h1
      exact ih hxt hpx (fun y hy hpy => huniq y (by simp [hy]) hpy)

theorem eq_singleton_of_nodup_all_eq {α : Type} {l : List α} {a : α}
    (hnd : l.Nodup) (ha : a ∈ l) (hall : ∀ x ∈ l, x = a) : l = [a] := by
  cases l with
  | nil => simp at ha
  | cons h t =>
    have hh : h = a := hall h (by simp)
    subst hh
    cases t with
    | nil => rfl
    | cons h2 t2 =>
      have h2a : h2 = h := hall h2 (by simp)
      rw [List.nodup_cons] at hnd
      exact absurd (by simp [h2a.symm] : h ∈ h2 :: t2) hnd.1

/-- C2: dismiss is idempotent.  Starting from a well-formed ledger (fresh
auto-increment ids, a monotone store clock) holding no row for `(u, nid)`, the
first dismiss inserts and returns `(nid, t₁)`; a second dismiss at any later
clock returns the same `notificationId` and the same `dismissedAt`, performs no
write (the ledger state is returned unchanged), and exactly one ledger row for
the pair exists. -/
theorem dismiss_idempotent (st : Ledger) (u nid : String) (t₁ t₂ : Nat)
    (hnd : (st.rows.map Row.id).Nodup)
    (hfresh : ∀ r ∈ st.rows, r.id < st.nextId)
    (hclock : ∀ r ∈ st.rows, r.dismissedAt ≤ t₁)
    (hstrip : pyStrip nid = nid) (hne : nid ≠ "")
    (hlen : nid.length ≤ MAX_NOTIFICATION_ID_LENGTH)
    (hsup : is_supported_notification_id nid = true)
    (hnew : findDismissal st.rows u nid = none) :
    ∃ st₁,
      dismiss_notification_for_user st u nid t₁ = (.ok ⟨nid, t₁⟩, st₁) ∧
      dismiss_notification_for_user st₁ u nid t₂ = (.ok ⟨nid, t₁⟩, st₁) ∧
      (st₁.rows.filter
        (fun r => r.userId == u && r.notificationId == nid)).length = 1 := by
  classical
  set newRow : Row := ⟨st.nextId, u, nid, t₁⟩ with hnewRow
  set stA : Ledger := ⟨st.rows ++ [newRow], st.nextId + 1⟩ with hstA
  have hlen' : ¬ MAX_NOTIFICATION_ID_LENGTH < nid.length := by omega
  have hfirst : dismiss_notification_for_user st u nid t₁ =
      (.ok ⟨nid, t₁⟩, bestEffortPrune stA u) := by
    unfold dismiss_notification_for_user
    rw [hstrip, if_neg hne, if_neg hlen', hsup]
    simp only [Bool.not_true, Bool.false_eq_true, if_false]
    rw [hnew]
  -- well-formedness of the post-insert table
  have hndA : (stA.rows.map Row.id).Nodup := by
    rw [hstA]
    simp only [List.map_append, List.map_cons, List.map_nil]
    rw [List.nodup_append]
    refine ⟨hnd, List.nodup_singleton _, ?_⟩
    intro x hx hx2
    simp only [List.mem_singleton] at hx2
    obtain ⟨r, hr, hrid⟩ := List.mem_map.mp hx
    have := hfresh r hr
    omega
  have hmemA : newRow ∈ stA.rows := by
    rw [hstA]
    simp
  have hmemqA : newRow ∈ userRows stA.rows u := by
    unfold userRows
    rw [List.mem_filter]
    exact ⟨hmemA, by simp⟩
  have hmax : ∀ y ∈ userRows stA.rows u, rowKey y ≠ rowKey newRow →
      pairLt (rowKey y) (rowKey newRow) := by
    intro y hy hk
    have hyA : y ∈ stA.rows := (List.filter_sublist stA.rows).subset hy
    rw [hstA] at hyA
    simp only [List.mem_append, List.mem_singleton] at hyA
    rcases hyA with hyr | hyr
    · have h1 := hclock y hyr
      have h2 := hfresh y hyr
      unfold pairLt rowKey
      simp only [hnewRow]
      omega
    · exact absurd (congrArg rowKey hyr) hk
  have hkd : KeysDistinct rowKey (userRows stA.rows u) :=
    keysDistinct_of_ids_nodup (ids_nodup_userRows u hndA)
  have hnotdrop : newRow ∉
      (sortByKey rowKey (userRows stA.rows u)).drop MAX_DISMISSED_NOTIFICATIONS :=
    not_mem_drop_sortByKey_of_strict_max rowKey hmemqA hmax hkd (by decide)
  have hnotid : newRow.id ∉ staleIdsBatch stA.rows u
      MAX_DISMISSED_NOTIFICATIONS PRUNE_BATCH_SIZE := by
    intro hmm
    obtain ⟨b, hbB, hbid⟩ := List.mem_map.mp hmm
    have hbs : b ∈ (sortByKey rowKey (userRows stA.rows u)).drop
        MAX_DISMISSED_NOTIFICATIONS :=
      (List.take_sublist _ _).subset hbB
    have hbA : b ∈ stA.rows :=
      (List.filter_sublist stA.rows).subset
        ((sortByKey_perm rowKey (userRows stA.rows u)).subset
          ((List.drop_sublist _ _).subset hbs))
    have hbeq : b = newRow := row_eq_of_id_eq hndA hbA hmemA hbid
    exact hnotdrop (hbeq ▸ hbs)
  have hstB : bestEffortPrune stA u =
      ⟨stA.rows.filter (fun r => !((staleIdsBatch stA.rows u
        MAX_DISMISSED_NOTIFICATIONS PRUNE_BATCH_SIZE).contains r.id)), stA.nextId⟩ := rfl
  set stB : Ledger := bestEffortPrune stA u with hstBdef
  have hkeeppred : (!((staleIdsBatch stA.rows u MAX_DISMISSED_NOTIFICATIONS
      PRUNE_BATCH_SIZE).contains newRow.id)) = true := by
    simp only [Bool.not_eq_true']
    exact Bool.eq_false_iff.mpr (fun h => hnotid (List.elem_iff.mp h))
  have hmemB : newRow ∈ stB.rows := by
    rw [hstB]
    exact List.mem_filter.mpr ⟨hmemA, hkeeppred⟩
  have hmatchnew : (newRow.userId == u && newRow.notificationId == nid) = true := by
    simp
  have hnomatch : ∀ r ∈ st.rows,
      ¬ (r.userId == u && r.notificationId == nid) = true := by
    have := List.find?_eq_none.mp hnew
    exact this
  have hmatchesA : ∀ y ∈ stA.rows,
      (y.userId == u && y.notificationId == nid) = true → y = newRow := by
    intro y hy hm
    rw [hstA] at hy
    simp only [List.mem_append, List.mem_singleton] at hy
    rcases hy with hy | hy
    · exact absurd hm (hnomatch y hy)
    · exact hy
  have hsubB : stB.rows.Sublist stA.rows := by
    rw [hstB]
    exact List.filter_sublist _
  have hmatchesB : ∀ y ∈ stB.rows,
      (y.userId == u && y.notificationId == nid) = true → y = newRow :=
    fun y hy hm => hmatchesA y (hsubB.subset hy) hm
  have hfind : findDismissal stB.rows u nid = some newRow :=
    find?_eq_some_of_unique hmemB hmatchnew hmatchesB
  have hsecond : dismiss_notification_for_user stB u nid t₂ =
      (.ok ⟨nid, t₁⟩, stB) := by
    unfold dismiss_notification_for_user
    rw [hstrip, if_neg hne, if_neg hlen', hsup]
    simp only [Bool.not_true, Bool.false_eq_true, if_false]
    rw [hfind]
  refine ⟨stB, hfirst, hsecond, ?_⟩
  have hndB : stB.rows.Nodup :=
    (List.Nodup.of_map _ hndA).sublist hsubB
  have hfeq : stB.rows.filter
      (fun r => r.userId == u && r.notificationId == nid) = [newRow] := by
    apply eq_singleton_of_nodup_all_eq (hndB.filter _)
    · exact List.mem_filter.mpr ⟨hmemB, hmatchnew⟩
    · intro x hx
      have := List.mem_filter.mp hx
      exact hmatchesB x this.1 this.2
  rw [hfeq]
  rfl

/-- Witness for `dismiss_idempotent`: one prior row for another pair, then two
dismissals of `comment-1-2`. -/
theorem dismiss_idempotent_at_concrete_input :
    ∃ st₁,
      dismiss_notification_for_user ⟨[⟨0, "u", "like-9", 3⟩], 1⟩ "u" "comment-1-2" 4 =
        (.ok ⟨"comment-1-2", 4⟩, st₁) ∧
      dismiss_notification_for_user st₁ "u" "comment-1-2" 9 =
        (.ok ⟨"comment-1-2", 4⟩, st₁) ∧
      (st₁.rows.filter
        (fun r => r.userId == "u" && r.notificationId == "comment-1-2")).length = 1 :=
  dismiss_idempotent ⟨[⟨0, "u", "like-9", 3⟩], 1⟩ "u" "comment-1-2" 4 9
    (by decide) (by decide) (by decide) (by decide) (by decide) (by decide)
    (by decide) (by decide)

/-! ### Stream aggregator model (`services/notifications/stream.py`)

Source tables are row lists; joins on a primary key are `find?`/`any`
(the key's uniqueness makes that the exact join semantics); an outer join against
the dismissal ledger followed by `IS NULL` / timestamp comparison becomes a
`find?` on the unique `(userId, notificationId)` pair. -/

structure PostRow where
  id : Nat
  authorId : String
deriving DecidableEq

structure CommentRow where
  id : Nat
  postId : Nat
  authorId : String
  createdAt : Nat
deriving DecidableEq

structure LikeRow where
  userId : String
  postId : Nat
  createdAt : Nat
  updatedAt : Nat
deriving DecidableEq

structure UserRow where
  id : String
  username : Option String
  name : Option String
deriving DecidableEq

structure FollowRequestRow where
  requesterId : String
  targetId : String
  createdAt : Nat
deriving DecidableEq

structure UserBlockRow where
  blockerId : String
  blockedId : String
deriving DecidableEq

structure DB where
  posts : List PostRow
  comments : List CommentRow
  likes : List LikeRow
  users : List UserRow
  followRequests : List FollowRequestRow
  blocks : List UserBlockRow
  dismissals : List Row
deriving DecidableEq

/-- Embeds `build_not_blocked_either_direction_filter`. -/
def notBlockedEitherDirection (db : DB) (viewerId candidateId : String) : Bool :=
  !(db.blocks.any (fun b =>
    (b.blockerId == viewerId && b.blockedId == candidateId) ||
    (b.blockerId == candidateId && b.blockedId == viewerId)))

/-- `dismissed_at` of the unique `(userId, notificationId)` ledger row, if any. -/
def dismissedAtOf (db : DB) (u nid : String) : Option Nat :=
  (db.dismissals.find? (fun d => d.userId == u && d.notificationId == nid)).map
    Row.dismissedAt

/-- The non-dismissal conditions of `_build_comment_events_visible_subquery`:
the viewer owns the post (`JOIN posts` + `Post.author_id == user_id`), the author
exists (`JOIN users`), the viewer did not author the comment, and no block in
either direction. -/
def commentQualifies (db : DB) (u : String) (c : CommentRow) : Bool :=
  db.posts.any (fun p => p.id == c.postId && p.authorId == u) &&
  db.users.any (fun w => w.id == c.authorId) &&
  (c.authorId != u) &&
  notBlockedEitherDirection db u c.authorId

/-- The comment dismissal outer join matched a row (`dismissed_comment.id` not
NULL): a ledger row of the viewer carries the built comment id. -/
def commentDismissed (db : DB) (u : String) (c : CommentRow) : Bool :=
  db.dismissals.any (fun d => d.userId == u &&
    d.notificationId == build_comment_notification_id c.postId c.id)

def commentKey (c : CommentRow) : Nat × Nat := (c.createdAt, c.id)

/-- Embeds `_build_comment_events_visible_subquery`: filter, order
`(created_at DESC, id DESC)`, cap at `limit`. -/
def commentEventsVisible (db : DB) (u : String) (limit : Nat) : List CommentRow :=
  (sortByKey commentKey
    (db.comments.filter
      (fun c => commentQualifies db u c && !(commentDismissed db u c)))).take limit

/-- The two dismissal conditions of `_build_like_events_visible_subquery`: both
the current-format and the legacy-format dismissal timestamps are absent or
strictly earlier than the like's event time.  The event time is `updated_at`;
the column is NOT NULL with a server default, so the API layer's
`coalesce(updated_at, created_at)` reduces to it. -/
def likeDismissCond (db : DB) (u : String) (l : LikeRow) : Bool :=
  (match dismissedAtOf db u (build_like_notification_id l.postId l.userId) with
   | none => true
   | some t => decide (t < l.updatedAt)) &&
  (match dismissedAtOf db u (legacy_like_notification_id l.postId) with
   | none => true
   | some t => decide (t < l.updatedAt))

def likeQualifies (db : DB) (u : String) (l : LikeRow) : Bool :=
  db.posts.any (fun p => p.id == l.postId && p.authorId == u) &&
  db.users.any (fun w => w.id == l.userId) &&
  (l.userId != u) &&
  notBlockedEitherDirection db u l.userId

def likeKey (l : LikeRow) : Nat × Nat := (l.updatedAt, l.postId)

/-- Embeds `_build_like_events_visible_subquery`. -/
def likeEventsVisible (db : DB) (u : String) (limit : Nat) : List LikeRow :=
  (sortByKey likeKey
    (db.likes.filter
      (fun l => likeQualifies db u l && likeDismissCond db u l))).take limit

def lookupUsername (db : DB) (uid : String) : Option String :=
  (db.users.find? (fun w => w.id == uid)).bind UserRow.username

/-- One row of the UNION ALL in `_fetch_notification_event_rows`
(`NotificationEventRow`). -/
structure EventRow where
  kind : String
  postId : Nat
  commentId : Option Nat
  likerUserId : Option String
  username : Option String
  occurredAt : Nat
deriving DecidableEq

def toCommentEvent (db : DB) (c : CommentRow) : EventRow :=
  ⟨"comment", c.postId, some c.id, none, lookupUsername db c.authorId, c.createdAt⟩

def toLikeEvent (db : DB) (l : LikeRow) : EventRow :=
  ⟨"like", l.postId, none, some l.userId, lookupUsername db l.userId, l.updatedAt⟩

/-- Code-point lexicographic strict order on character lists (string collation
model for the DB's text tiebreakers). -/
def charListLtB : List Char → List Char → Bool
  | [], [] => false
  | [], _ :: _ => true
  | _ :: _, [] => false
  | a :: as, b :: bs => a < b || (a = b && charListLtB as bs)

def optNatKey (o : Option Nat) : Nat × Nat :=
  match o with
  | none => (1, 0)
  | some v => (0, v)

def optStrLtB : Option String → Option String → Bool
  | none, _ => false
  | some _, none => true
  | some a, some b => charListLtB a.data b.data

/-- The outer `ORDER BY occurred_at DESC, post_id DESC, comment_id DESC,
liker_user_id DESC` of `_fetch_notification_event_rows` (`a` sorts no later than
`b`; the NULL tiebreaker columns sort first in DESC order, as in Postgres). -/
def evGe (a b : EventRow) : Prop :=
  (b.occurredAt < a.occurredAt) ∨ (b.occurredAt = a.occurredAt ∧
    ((b.postId < a.postId) ∨ (b.postId = a.postId ∧
      (pairLt (optNatKey b.commentId) (optNatKey a.commentId) ∨
        (optNatKey b.commentId = optNatKey a.commentId ∧
          (optStrLtB b.likerUserId a.likerUserId = true ∨
            b.likerUserId = a.likerUserId))))))

instance : DecidableRel evGe := fun a b => by
  unfold evGe
  exact inferInstance

/-- Embeds `_fetch_notification_event_rows`: UNION ALL of the two bounded
subqueries, re-sorted and capped at `limit`; the second component counts the
store round-trips the function performs (one — the union executes as a single
query). -/
def _fetch_notification_event_rows (db : DB) (u : String) (limit : Nat) :
    List EventRow × Nat :=
  ((((commentEventsVisible db u limit).map (toCommentEvent db) ++
      (likeEventsVisible db u limit).map (toLikeEvent db)).insertionSort evGe).take
        limit, 1)

structure NotificationStreamItem where
  id : String
  kind : String
  username : Option String
  message : String
  href : String
  occurredAt : Nat
deriving DecidableEq

/-- Embeds `_build_notification_stream_items`. -/
def _build_notification_stream_items (rows : List EventRow) :
    List NotificationStreamItem :=
  rows.filterMap (fun e =>
    if e.kind == "comment" then
      e.commentId.map (fun cid =>
        ⟨build_comment_notification_id e.postId cid, "comment", e.username,
         "a commente votre publication", "/posts/" ++ toString e.postId,
         e.occurredAt⟩)
    else
      e.likerUserId.map (fun lid =>
        ⟨build_like_notification_id e.postId lid, "like", e.username,
         "a aime votre publication", "/posts/" ++ toString e.postId,
         e.occurredAt⟩))

/-- Embeds `_load_notification_stream_items` (result, store round-trips). -/
def _load_notification_stream_items (db : DB) (u : String) (limit : Nat) :
    List NotificationStreamItem × Nat :=
  (_build_notification_stream_items (_fetch_notification_event_rows db u limit).1,
   (_fetch_notification_event_rows db u limit).2)

def toHexCharUpper (n : Nat) : Char :=
  if n < 10 then Char.ofNat (48 + n) else Char.ofNat (55 + n)

/-- ASCII model of `urllib.parse.quote` (default `safe='/'`). -/
def urlQuote (s : String) : String :=
  ⟨(s.data.map (fun c =>
    if c.isAlphanum || c = '_' || c = '.' || c = '-' || c = '~' || c = '/' then [c]
    else ['%', toHexCharUpper (c.toNat / 16), toHexCharUpper (c.toNat % 16)])).flatten⟩

structure FollowStreamItem where
  id : String
  username : String
  name : String
  href : String
  occurredAt : Nat
deriving DecidableEq

/-- WHERE clause of `_load_follow_stream_items`: request targets the viewer, the
requester exists, no block either way, and any `follow-<requesterId>` dismissal
is strictly earlier than the request's `created_at`. -/
def followVisible (db : DB) (u : String) (f : FollowRequestRow) : Bool :=
  (f.targetId == u) &&
  db.users.any (fun w => w.id == f.requesterId) &&
  notBlockedEitherDirection db u f.requesterId &&
  (match dismissedAtOf db u (build_follow_notification_id f.requesterId) with
   | none => true
   | some t => decide (t < f.createdAt))

/-- `ORDER BY created_at DESC, requester_id DESC`. -/
def frGe (a b : FollowRequestRow) : Prop :=
  b.createdAt < a.createdAt ∨ (b.createdAt = a.createdAt ∧
    (charListLtB b.requesterId.data a.requesterId.data = true ∨
      b.requesterId = a.requesterId))

instance : DecidableRel frGe := fun a b => by
  unfold frGe
  exact inferInstance

/-- Embeds `_load_follow_stream_items` (result, store round-trips): rows without
a truthy username are skipped, `name` falls back to the username when falsy. -/
def _load_follow_stream_items (db : DB) (u : String) (limit : Nat) :
    List FollowStreamItem × Nat :=
  ((((db.followRequests.filter (followVisible db u)).insertionSort frGe).take
      limit).filterMap (fun f =>
    match lookupUsername db f.requesterId with
    | none => none
    | some un =>
      if un = "" then none
      else
        some ⟨build_follow_notification_id f.requesterId, un,
          (match (db.users.find? (fun w => w.id == f.requesterId)).bind
              UserRow.name with
           | none => un
           | some nm => if nm = "" then un else nm),
          "/users/" ++ urlQuote un, f.createdAt⟩), 1)

structure NotificationStreamResponse where
  notifications : List NotificationStreamItem
  follow_requests : List FollowStreamItem
  total_count : Nat
deriving DecidableEq

/-- Embeds `load_notification_stream` (response, total store round-trips). -/
def load_notification_stream (db : DB) (u : String) (limit followLimit : Nat) :
    NotificationStreamResponse × Nat :=
  (⟨(_load_notification_stream_items db u limit).1,
    (_load_follow_stream_items db u followLimit).1,
    (_load_notification_stream_items db u limit).1.length +
      (_load_follow_stream_items db u followLimit).1.length⟩,
   (_load_notification_stream_items db u limit).2 +
     (_load_follow_stream_items db u followLimit).2)

/-- C8: one `load_notification_stream` call performs exactly two store
round-trips (one union query for comment+like events, one follow-request query —
at most 2 per source type), for every database and every limit; in particular the
count does not change however large the dismissal ledger grows. -/
theorem load_stream_constant_query_count (db : DB) (u : String)
    (limit followLimit : Nat) (extra : List Row) :
    (load_notification_stream db u limit followLimit).2 = 2 ∧
    (load_notification_stream
      ⟨db.posts, db.comments, db.likes, db.users, db.followRequests, db.blocks,
        extra⟩ u limit followLimit).2 = 2 :=
  ⟨rfl, rfl⟩

/-- C4: like dismissal is conditional, not permanent.  A qualifying like row is
in the visible set iff the current-format dismissal timestamp is absent or
strictly earlier than the like's event time AND the legacy-format (`like-<postId>`)
dismissal timestamp is absent or strictly earlier; consequently a like whose event
time has advanced past both dismissal timestamps reappears, and a legacy-format
dismissal at or after the event time suppresses the current-format event. -/
theorem like_visibility_conditional (db : DB) (u : String) (l : LikeRow)
    (hmem : l ∈ db.likes) (hq : likeQualifies db u l = true) :
    (l ∈ db.likes.filter
        (fun x => likeQualifies db u x && likeDismissCond db u x) ↔
      ((∀ te, dismissedAtOf db u
          (build_like_notification_id l.postId l.userId) = some te →
            te < l.updatedAt) ∧
       (∀ tl, dismissedAtOf db u (legacy_like_notification_id l.postId) = some tl →
            tl < l.updatedAt))) ∧
    (∀ T,
      (∀ te, dismissedAtOf db u
          (build_like_notification_id l.postId l.userId) = some te → te ≤ T) →
      (∀ tl, dismissedAtOf db u
          (legacy_like_notification_id l.postId) = some tl → tl ≤ T) →
      T < l.updatedAt →
      l ∈ db.likes.filter
        (fun x => likeQualifies db u x && likeDismissCond db u x)) ∧
    (∀ tl, dismissedAtOf db u (legacy_like_notification_id l.postId) = some tl →
      l.updatedAt ≤ tl →
      l ∉ db.likes.filter
        (fun x => likeQualifies db u x && likeDismissCond db u x)) := by
  have h1 : (match dismissedAtOf db u
        (build_like_notification_id l.postId l.userId) with
      | none => true
      | some t => decide (t < l.updatedAt)) = true ↔
      (∀ te, dismissedAtOf db u
        (build_like_notification_id l.postId l.userId) = some te →
          te < l.updatedAt) := by
    cases hE : dismissedAtOf db u (build_like_notification_id l.postId l.userId) with
    | none => simp
    | some t => simp
  have h2 : (match dismissedAtOf db u (legacy_like_notification_id l.postId) with
      | none => true
      | some t => decide (t < l.updatedAt)) = true ↔
      (∀ tl, dismissedAtOf db u (legacy_like_notification_id l.postId) = some tl →
          tl < l.updatedAt) := by
    cases hE : dismissedAtOf db u (legacy_like_notification_id l.postId) with
    | none => simp
    | some t => simp
  have hiff : likeDismissCond db u l = true ↔
      ((∀ te, dismissedAtOf db u
          (build_like_notification_id l.postId l.userId) = some te →
            te < l.updatedAt) ∧
       (∀ tl, dismissedAtOf db u (legacy_like_notification_id l.postId) = some tl →
            tl < l.updatedAt)) := by
    unfold likeDismissCond
    rw [Bool.and_eq_true, h1, h2]
  have hmemiff : l ∈ db.likes.filter
      (fun x => likeQualifies db u x && likeDismissCond db u x) ↔
      likeDismissCond db u l = true := by
    rw [List.mem_filter, Bool.and_eq_true]
    constructor
    · rintro ⟨_, _, hc⟩
      exact hc
    · intro hc
      exact ⟨hmem, hq, hc⟩
  refine ⟨hmemiff.trans hiff, ?_, ?_⟩
  · intro T hTe hTl hlt
    refine hmemiff.mpr (hiff.mpr ⟨?_, ?_⟩)
    · intro te hte
      exact lt_of_le_of_lt (hTe te hte) hlt
    · intro tl htl
      exact lt_of_le_of_lt (hTl tl htl) hlt
  · intro tl htl hge hmemf
    have := ((hmemiff.trans hiff).mp hmemf).2 tl htl
    omega

/-- Witness for `like_visibility_conditional`: a legacy `like-1` dismissal at the
like's event time suppresses the current-format event. -/
theorem like_suppressed_by_legacy_dismissal_at_concrete_input :
    (⟨"a", 1, 10, 10⟩ : LikeRow) ∉
      (DB.mk [⟨1, "o"⟩] [] [⟨"a", 1, 10, 10⟩]
        [⟨"o", some "o", none⟩, ⟨"a", some "alice", none⟩] [] []
        [⟨0, "o", "like-1", 10⟩]).likes.filter
        (fun x => likeQualifies (DB.mk [⟨1, "o"⟩] [] [⟨"a", 1, 10, 10⟩]
          [⟨"o", some "o", none⟩, ⟨"a", some "alice", none⟩] [] []
          [⟨0, "o", "like-1", 10⟩]) "o" x &&
          likeDismissCond (DB.mk [⟨1, "o"⟩] [] [⟨"a", 1, 10, 10⟩]
          [⟨"o", some "o", none⟩, ⟨"a", some "alice", none⟩] [] []
          [⟨0, "o", "like-1", 10⟩]) "o" x) := by
  have h := like_visibility_conditional
    (DB.mk [⟨1, "o"⟩] [] [⟨"a", 1, 10, 10⟩]
      [⟨"o", some "o", none⟩, ⟨"a", some "alice", none⟩] [] []
      [⟨0, "o", "like-1", 10⟩]) "o" ⟨"a", 1, 10, 10⟩ (by decide) (by decide)
  exact h.2.2 10 (by decide) (by decide)

/-- The stream item `_build_notification_stream_items` produces for a comment
row (used to state the backfill result). -/
def commentStreamItemOf (db : DB) (c : CommentRow) : NotificationStreamItem :=
  ⟨build_comment_notification_id c.postId c.id, "comment",
   lookupUsername db c.authorId, "a commente votre publication",
   "/posts/" ++ toString c.postId, c.createdAt⟩

/-- C5: backfill under dismissal.  If the user's stream consists of comment
events only (no visible likes), the qualifying comments sorted newest-first have
exactly their `K` newest dismissed, and `K` is less than the number of comments,
then a stream request with `limit = 1` returns exactly the `(K+1)`-th newest
comment event.  (With `N = 560` and `K = 540` this is the spec's concrete
instance.) -/
theorem stream_backfills_past_dismissals (db : DB) (u : String) (K : Nat)
    (hnd : (db.comments.map CommentRow.id).Nodup)
    (hK : K < (sortByKey commentKey
      (db.comments.filter (commentQualifies db u))).length)
    (hdis : ∀ c ∈ (sortByKey commentKey
        (db.comments.filter (commentQualifies db u))).take K,
      commentDismissed db u c = true)
    (hvis : ∀ c ∈ (sortByKey commentKey
        (db.comments.filter (commentQualifies db u))).drop K,
      commentDismissed db u c = false)
    (hlikes : db.likes.filter
      (fun l => likeQualifies db u l && likeDismissCond db u l) = []) :
    (_load_notification_stream_items db u 1).1 =
      [commentStreamItemOf db
        ((sortByKey commentKey
          (db.comments.filter (commentQualifies db u))).get ⟨K, hK⟩)] := by
  classical
  set P := db.comments.filter (commentQualifies db u) with hP
  set Q := sortByKey commentKey P with hQ
  set c0 := Q.get ⟨K, hK⟩ with hc0
  -- the visible filter splits into qualification then non-dismissal
  have hsplit : db.comments.filter
      (fun c => commentQualifies db u c && !(commentDismissed db u c)) =
      P.filter (fun c => !(commentDismissed db u c)) := by
    rw [hP, List.filter_filter]
    apply List.filter_congr
    intro a _
    rw [Bool.and_comm]
  -- sorting after the extra filter equals filtering the sorted list
  have hndP : ((P.map CommentRow.id)).Nodup :=
    hnd.sublist ((List.filter_sublist db.comments).map CommentRow.id)
  have hndQ : ((Q.map CommentRow.id)).Nodup :=
    (((sortByKey_perm commentKey P).map CommentRow.id).nodup_iff).mpr hndP
  have hkeyne : ∀ {a b : CommentRow}, a.id ≠ b.id → commentKey a ≠ commentKey b := by
    intro a b hne hk
    exact hne (congrArg Prod.snd hk)
  have hkdQf : KeysDistinct commentKey
      (Q.filter (fun c => !(commentDismissed db u c))) := by
    have hp : (Q.filter (fun c => !(commentDismissed db u c))).Pairwise
        (fun a b => a.id ≠ b.id) :=
      (List.pairwise_map.mp
        (hndQ.sublist ((List.filter_sublist Q).map CommentRow.id))).imp id
    exact hp.imp (fun hab => hkeyne hab)
  have hp1 : List.Perm (sortByKey commentKey
      (P.filter (fun c => !(commentDismissed db u c))))
      (P.filter (fun c => !(commentDismissed db u c))) := sortByKey_perm commentKey _
  have hp2 : List.Perm (Q.filter (fun c => !(commentDismissed db u c)))
      (P.filter (fun c => !(commentDismissed db u c))) :=
    (sortByKey_perm commentKey P).filter _
  have hsorteq : sortByKey commentKey
      (P.filter (fun c => !(commentDismissed db u c))) =
      Q.filter (fun c => !(commentDismissed db u c)) := by
    apply eq_of_perm_of_sorted_distinct commentKey (hp1.trans hp2.symm)
    · exact sortByKey_sorted commentKey _
    · exact (sortByKey_sorted commentKey P).filter _
    · exact keysDistinct_of_perm commentKey (hp1.trans hp2.symm).symm hkdQf
  -- the filtered sorted list is exactly the rows past the K dismissed ones
  have hfilterQ : Q.filter (fun c => !(commentDismissed db u c)) = Q.drop K := by
    conv_lhs => rw [← List.take_append_drop K Q]
    rw [List.filter_append]
    have htakenil : (Q.take K).filter (fun c => !(commentDismissed db u c)) = [] := by
      rw [List.filter_eq_nil_iff]
      intro c hc
      rw [hdis c hc]
      simp
    have hdropself : (Q.drop K).filter (fun c => !(commentDismissed db u c)) =
        Q.drop K := by
      rw [List.filter_eq_self]
      intro c hc
      rw [hvis c hc]
      rfl
    rw [htakenil, hdropself, List.nil_append]
  have hdropK : Q.drop K = c0 :: Q.drop (K + 1) := by
    rw [hc0, List.drop_eq_getElem_cons hK]
    simp
  have hcev : commentEventsVisible db u 1 = [c0] := by
    unfold commentEventsVisible
    rw [hsplit, hsorteq, hfilterQ, hdropK]
    simp
  have hlev : likeEventsVisible db u 1 = [] := by
    unfold likeEventsVisible
    rw [hlikes]
    rfl
  have hfetch : (_fetch_notification_event_rows db u 1).1 = [toCommentEvent db c0] := by
    unfold _fetch_notification_event_rows
    rw [hcev, hlev]
    rfl
  unfold _load_notification_stream_items
  rw [hfetch]
  rfl

/-- Concrete database for the backfill witness: three comments on the viewer's
post, the two newest dismissed. -/
def backfillDB : DB :=
  ⟨[⟨1, "o"⟩],
   [⟨1, 1, "a", 1⟩, ⟨2, 1, "a", 2⟩, ⟨3, 1, "a", 3⟩],
   [],
   [⟨"o", some "o", none⟩, ⟨"a", some "alice", none⟩],
   [], [],
   [⟨0, "o", "comment-1-3", 5⟩, ⟨1, "o", "comment-1-2", 5⟩]⟩

/-- Witness for `stream_backfills_past_dismissals`: `N = 3`, `K = 2`, `limit = 1`
returns the third-newest comment. -/
theorem stream_backfill_at_concrete_input :
    (_load_notification_stream_items backfillDB "o" 1).1 =
      [⟨"comment-1-1", "comment", some "alice", "a commente votre publication",
        "/posts/1", 1⟩] :=
  (stream_backfills_past_dismissals backfillDB "o" 2 (by decide) (by decide)
    (by decide) (by decide) (by decide)).trans (by decide)

/-! ### Maintenance driver (`scripts/prune_dismissed_notifications.py`)

`run()` scans the users whose dismissal count exceeds the keep limit and calls
`_prune_user` for each.  Neither `run` nor `_prune_user` wraps that call in
`try`/`except`, so an exception from one user's prune propagates out of `run` and
ends the scan — the only catch-log-continue handler in the code base is
`_run_best_effort_prune` on the online dismiss path.  The model abstracts the
per-user prune as an oracle `String → Except PruneError Nat`, flattens the user
pagination into one offending-user list, and omits the wall-clock elapsed-time
stop condition (a pure model has no clock); the users-per-run and rows-per-run
caps are kept.  Next to the Python return value the model records the trace of
users whose prune was invoked — the observable the claim speaks about. -/

inductive PruneError
  | dbError
deriving DecidableEq

structure ScanStats where
  usersScanned : Nat
  usersPruned : Nat
  rowsDeleted : Nat
  stopReason : String
deriving DecidableEq

/-- The per-user loop of `run`: cap checks, then the unguarded `_prune_user`
call (an `.error` short-circuits exactly as the unhandled Python exception
does), then counter updates and the rows-cap re-check. -/
def runScanUsers (f : String → Except PruneError Nat) (maxUsers maxRows : Nat) :
    List String → Nat → Nat → Nat → List String →
      (Except PruneError ScanStats) × List String
  | [], scanned, pruned, deleted, trace =>
    (.ok ⟨scanned, pruned, deleted, "completed"⟩, trace)
  | uid :: rest, scanned, pruned, deleted, trace =>
    if maxUsers ≤ scanned then
      (.ok ⟨scanned, pruned, deleted, "max_users"⟩, trace)
    else if maxRows ≤ deleted then
      (.ok ⟨scanned, pruned, deleted, "max_rows"⟩, trace)
    else
      match f uid with
      | .error e => (.error e, trace ++ [uid])
      | .ok d =>
        if maxRows ≤ deleted + d then
          (.ok ⟨scanned + 1, if 0 < d then pruned + 1 else pruned, deleted + d,
            "max_rows"⟩, trace ++ [uid])
        else
          runScanUsers f maxUsers maxRows rest (scanned + 1)
            (if 0 < d then pruned + 1 else pruned) (deleted + d) (trace ++ [uid])

/-- A prune oracle whose prune of user `B` throws. -/
def failingPrune : String → Except PruneError Nat :=
  fun uid => if uid = "B" then .error .dbError else .ok 0

/-- Counterexample to C7 as stated: with users `A, B, C` and `B`'s prune
throwing, the run ends in the propagated error (it is fatal) and `C` is never
scanned — the trace stops at `["A", "B"]`. -/
theorem maintenance_failure_is_fatal :
    (runScanUsers failingPrune 200 5000 ["A", "B", "C"] 0 0 0 []).1 =
        .error .dbError ∧
    (runScanUsers failingPrune 200 5000 ["A", "B", "C"] 0 0 0 []).2 = ["A", "B"] :=
  ⟨rfl, rfl⟩

/-- C7 (amended): a per-user prune failure is fatal to the maintenance run.  For
any run positioned before a failing user, with earlier users pruning zero rows
and the user/row caps not yet reached, the scan invokes the prunes up to and
including the failing user, then stops with the propagated error; the users after
the failure are never scanned. -/
theorem prune_failure_propagates (f : String → Except PruneError Nat)
    (maxUsers maxRows : Nat) (e : PruneError) :
    ∀ (pre : List String) (u : String) (post : List String)
      (scanned pruned deleted : Nat) (trace : List String),
      (∀ v ∈ pre, f v = .ok 0) → f u = .error e →
      scanned + pre.length < maxUsers → deleted < maxRows →
      runScanUsers f maxUsers maxRows (pre ++ u :: post) scanned pruned deleted
          trace =
        (.error e, trace ++ pre ++ [u]) := by
  intro pre
  induction pre with
  | nil =>
    intro u post scanned pruned deleted trace _ hu hmu hmr
    simp only [List.nil_append]
    rw [runScanUsers, if_neg (by omega), if_neg (by omega), hu]
    simp
  | cons v vs ih =>
    intro u post scanned pruned deleted trace hpre hu hmu hmr
    have hv := hpre v (by simp)
    simp only [List.cons_append]
    rw [runScanUsers, if_neg (by omega), if_neg (by omega), hv]
    simp only [Nat.lt_irrefl, if_false, Nat.add_zero]
    rw [if_neg (by omega)]
    have hrec := ih u post (scanned + 1) pruned deleted (trace ++ [v])
      (fun w hw => hpre w (by simp [hw])) hu
      (by simp only [List.length_cons] at hmu; omega) hmr
    rw [hrec]
    simp

deriving instance DecidableEq for Except

/-- Witness for `prune_failure_propagates` at the counterexample's input. -/
theorem prune_failure_propagates_at_concrete_input :
    runScanUsers failingPrune 200 5000 ["A", "B", "C"] 0 0 0 [] =
      (.error .dbError, ["A", "B"]) := by
  have h := prune_failure_propagates failingPrune 200 5000 .dbError ["A"] "B" ["C"]
    0 0 0 [] (by decide) (by decide) (by decide) (by decide)
  simpa using h

end MyStagram
